import Mathlib

/-!
# NS16550A UART driver — a shallow embedding

This file embeds the NS16550A UART driver (`src/lib.rs`) in Lean 4 and
proves its specified properties.

Modelling decisions:
* Memory-mapped register accesses are observable events.  The pure
  configuration operations (`set_lcr`, `set_fcr`, `init`) perform only
  writes, so they are embedded as functions returning the list of
  accesses they perform, in program order.  `Access` also has a read
  constructor so that "performs no reads" is a meaningful statement.
* `put` and `get` each read the Line Status Register once and branch on
  it, so they are embedded as functions of an explicit register-block
  state `regs : Nat → Nat` (value of the byte at each absolute
  address).  `put` returns the updated state.
* `write_str` polls the Line Status Register repeatedly; successive
  volatile reads may observe different values, so the device is
  modelled as a schedule `lsr : Nat → Nat` giving the LSR byte
  observed by the k-th poll.  The busy-wait loop is embedded with
  explicit fuel; termination under a fairness assumption is a theorem.
* Rust's `usize`/`u8`/`u16` are embedded as `Nat`; all enum
  discriminants and register bytes are small enough that no wrap-around
  occurs in the driver, and the 16-bit divisor store is decomposed into
  its low and high bytes (little-endian, as on the driver's target and
  as the specification's register map states).
-/

/-- The UART handle: a base address, nothing else (`struct Uart`). -/
structure Uart where
  base_address : Nat
  deriving DecidableEq

/-- `Uart::new` — pure value construction (`const fn`), no register access. -/
def Uart.new (a : Nat) : Uart := ⟨a⟩

/-- Word length (`enum WordLength`). -/
inductive WordLength
  | FIVE
  | SIX
  | SEVEN
  | EIGHT
  deriving DecidableEq, Fintype

/-- The Rust discriminant of `WordLength` (`FIVE = 0 .. EIGHT = 3`). -/
def WordLength.toNat : WordLength → Nat
  | .FIVE => 0
  | .SIX => 1
  | .SEVEN => 2
  | .EIGHT => 3

/-- Number of stop bits (`enum StopBits`). -/
inductive StopBits
  | ONE
  | TWO
  deriving DecidableEq, Fintype

/-- The Rust discriminant of `StopBits` (`ONE = 0, TWO = 1`). -/
def StopBits.toNat : StopBits → Nat
  | .ONE => 0
  | .TWO => 1

/-- Parity bit (`enum ParityBit`). -/
inductive ParityBit
  | DISABLE
  | ENABLE
  deriving DecidableEq, Fintype

/-- The Rust discriminant of `ParityBit` (`DISABLE = 0, ENABLE = 1`). -/
def ParityBit.toNat : ParityBit → Nat
  | .DISABLE => 0
  | .ENABLE => 1

/-- Parity select (`enum ParitySelect`). -/
inductive ParitySelect
  | EVEN
  | ODD
  deriving DecidableEq, Fintype

/-- The Rust discriminant of `ParitySelect` (`EVEN = 0, ODD = 1`). -/
def ParitySelect.toNat : ParitySelect → Nat
  | .EVEN => 0
  | .ODD => 1

/-- Stick parity (`enum StickParity`). -/
inductive StickParity
  | DISABLE
  | ENABLE
  deriving DecidableEq, Fintype

/-- The Rust discriminant of `StickParity` (`DISABLE = 0, ENABLE = 1`). -/
def StickParity.toNat : StickParity → Nat
  | .DISABLE => 0
  | .ENABLE => 1

/-- Break control (`enum Break`). -/
inductive Break
  | DISABLE
  | ENABLE
  deriving DecidableEq, Fintype

/-- The Rust discriminant of `Break` (`DISABLE = 0, ENABLE = 1`). -/
def Break.toNat : Break → Nat
  | .DISABLE => 0
  | .ENABLE => 1

/-- Divisor latch access bit (`enum DLAB`). -/
inductive DLAB
  | CLEAR
  | SET
  deriving DecidableEq, Fintype

/-- The Rust discriminant of `DLAB` (`CLEAR = 0, SET = 1`). -/
def DLAB.toNat : DLAB → Nat
  | .CLEAR => 0
  | .SET => 1

/-- DMA mode select (`enum DMAMode`). -/
inductive DMAMode
  | MODE0
  | MODE1
  deriving DecidableEq, Fintype

/-- The Rust discriminant of `DMAMode` (`MODE0 = 0, MODE1 = 1`). -/
def DMAMode.toNat : DMAMode → Nat
  | .MODE0 => 0
  | .MODE1 => 1

/-- Baud-rate divisor presets (`enum Divisor`, `#[repr(u16)]`). -/
inductive Divisor
  | BAUD50
  | BAUD300
  | BAUD1200
  | BAUD2400
  | BAUD4800
  | BAUD9600
  | BAUD19200
  | BAUD38400
  | BAUD57600
  | BAUD115200
  deriving DecidableEq, Fintype

/-- The Rust `u16` discriminant of each `Divisor` preset. -/
def Divisor.toNat : Divisor → Nat
  | .BAUD50 => 0x0900
  | .BAUD300 => 0x0180
  | .BAUD1200 => 0x0060
  | .BAUD2400 => 0x0030
  | .BAUD4800 => 0x0018
  | .BAUD9600 => 0x000C
  | .BAUD19200 => 0x0006
  | .BAUD38400 => 0x0003
  | .BAUD57600 => 0x0002
  | .BAUD115200 => 0x0001

/-- The baud rate named by each `Divisor` variant (from its identifier). -/
def Divisor.baudRate : Divisor → Nat
  | .BAUD50 => 50
  | .BAUD300 => 300
  | .BAUD1200 => 1200
  | .BAUD2400 => 2400
  | .BAUD4800 => 4800
  | .BAUD9600 => 9600
  | .BAUD19200 => 19200
  | .BAUD38400 => 38400
  | .BAUD57600 => 57600
  | .BAUD115200 => 115200

/-- One volatile access to the register block, at an absolute address.
`read8` records the address of a byte read; `write8` a byte write;
`write16` the driver's single 16-bit divisor store. -/
inductive Access
  | read8 (addr : Nat)
  | write8 (addr : Nat) (val : Nat)
  | write16 (addr : Nat) (val : Nat)
  deriving DecidableEq

/-- Whether an access is a read. -/
def Access.isRead : Access → Bool
  | .read8 _ => true
  | .write8 _ _ => false
  | .write16 _ _ => false

/-- Effect of one access on the register-block state (byte at each
address).  The 16-bit store writes its low byte at `addr` and its high
byte at `addr + 1` (little-endian target, spec §3). -/
def applyAccess (regs : Nat → Nat) : Access → (Nat → Nat)
  | .read8 _ => regs
  | .write8 a v => Function.update regs a (v % 256)
  | .write16 a v =>
      Function.update (Function.update regs a (v % 256)) (a + 1) (v / 256 % 256)

/-- Effect of a list of accesses, applied in order. -/
def applyTrace : (Nat → Nat) → List Access → (Nat → Nat)
  | regs, [] => regs
  | regs, a :: rest => applyTrace (applyAccess regs a) rest

/-- The LCR byte computed by `Uart::set_lcr`:
`wl | (sb << 2) | (pb << 3) | (ps << 4) | (sp << 5) | (brk << 6) | (dlab << 7)`. -/
def lcrByte (wl : WordLength) (sb : StopBits) (pb : ParityBit)
    (ps : ParitySelect) (sp : StickParity) (brk : Break) (dlab : DLAB) : Nat :=
  wl.toNat ||| (sb.toNat <<< 2) ||| (pb.toNat <<< 3) ||| (ps.toNat <<< 4)
    ||| (sp.toNat <<< 5) ||| (brk.toNat <<< 6) ||| (dlab.toNat <<< 7)

/-- `Uart::set_lcr` — one volatile byte write of the LCR byte to
`base_address + 3`. -/
def Uart.set_lcr (u : Uart) (wl : WordLength) (sb : StopBits) (pb : ParityBit)
    (ps : ParitySelect) (sp : StickParity) (brk : Break) (dlab : DLAB) :
    List Access :=
  [Access.write8 (u.base_address + 3) (lcrByte wl sb pb ps sp brk dlab)]

/-- `Uart::set_fcr` — one volatile byte write of `1 | (dma_mode << 3)` to
`base_address + 2`. -/
def Uart.set_fcr (u : Uart) (d : DMAMode) : List Access :=
  [Access.write8 (u.base_address + 2) (1 ||| (d.toNat <<< 3))]

/-- `Uart::init` — `set_lcr` with DLAB set, then `set_fcr`, then one
volatile 16-bit write of the divisor to `base_address`, then `set_lcr`
with DLAB clear. -/
def Uart.init (u : Uart) (wl : WordLength) (sb : StopBits) (pb : ParityBit)
    (ps : ParitySelect) (sp : StickParity) (brk : Break) (d : DMAMode)
    (dv : Divisor) : List Access :=
  u.set_lcr wl sb pb ps sp brk DLAB.SET
    ++ u.set_fcr d
    ++ [Access.write16 u.base_address dv.toNat]
    ++ u.set_lcr wl sb pb ps sp brk DLAB.CLEAR

/-- `Uart::put` on a register-block state: read the LSR (byte at
`base_address + 5`); if bit 5 is clear return `none` and leave the state
unchanged, else write `c` to `base_address` and return `some c`. -/
def Uart.put (u : Uart) (regs : Nat → Nat) (c : Nat) :
    Option Nat × (Nat → Nat) :=
  if regs (u.base_address + 5) &&& 0x20 = 0 then (none, regs)
  else (some c, Function.update regs u.base_address c)

/-- `Uart::get` on a register-block state: read the LSR (byte at
`base_address + 5`); if bit 0 is clear return `none`, else return the
byte read at `base_address`. -/
def Uart.get (u : Uart) (regs : Nat → Nat) : Option Nat :=
  if regs (u.base_address + 5) &&& 1 = 0 then none
  else some (regs u.base_address)

/-- `Uart::put` against a poll schedule: `lsr k` is the LSR byte the
k-th poll observes.  Returns `some c` when the byte is accepted
(and written), `none` when bit 5 was clear. -/
def putAt (lsr : Nat → Nat) (k : Nat) (c : Nat) : Option Nat :=
  if lsr k &&& 0x20 = 0 then none else some c

/-- The busy-wait loop `while self.put(c) == None {}` of `write_str`,
with explicit fuel.  Returns `some (j, k)` when the byte was accepted
(and written to offset 0) at poll `j`, with `k` the next poll index;
`none` when the fuel ran out first. -/
def putLoop (lsr : Nat → Nat) (c : Nat) : Nat → Nat → Option (Nat × Nat)
  | _, 0 => none
  | k, fuel + 1 =>
    if putAt lsr k c = none then putLoop lsr c (k + 1) fuel
    else some (k, k + 1)

/-- `<Uart as Write>::write_str`: for each byte in order, spin on `put`
until it is accepted.  Returns the list of `(poll index, byte)` writes
to offset 0 in the order performed and the final poll index; `none` when
the fuel ran out (the real loop would still be spinning). -/
def write_str (lsr : Nat → Nat) (fuel : Nat) :
    List Nat → Nat → Option (List (Nat × Nat) × Nat)
  | [], k => some ([], k)
  | c :: cs, k =>
    (putLoop lsr c k fuel).bind fun jk =>
      (write_str lsr fuel cs jk.2).bind fun wskf =>
        some ((jk.1, c) :: wskf.1, wskf.2)

/-- C9: `new(a)` is pure value construction and `base_address` is a
read-only accessor: the round trip `base_address (new a) = a` holds for
every address, and `new a` is exactly the handle holding `a` (so neither
operation touches a register: both are access-free functions). -/
theorem new_base_address_roundtrip (a : Nat) :
    (Uart.new a).base_address = a ∧ Uart.new a = ⟨a⟩ :=
  ⟨rfl, rfl⟩

/-- C10: every `Divisor` preset equals 115200 divided by the baud rate
in its name, and carries the exact documented `u16` value; equivalently
`divisor * baud = 115200` for every preset, so the presets are mutually
consistent with one input-clock/16 rate of 115200. -/
theorem divisor_presets_consistent :
    (∀ d : Divisor, d.toNat * d.baudRate = 115200) ∧
    (∀ d : Divisor, d.toNat = 115200 / d.baudRate) ∧
    Divisor.BAUD50.toNat = 0x0900 ∧ Divisor.BAUD300.toNat = 0x0180 ∧
    Divisor.BAUD1200.toNat = 0x0060 ∧ Divisor.BAUD2400.toNat = 0x0030 ∧
    Divisor.BAUD4800.toNat = 0x0018 ∧ Divisor.BAUD9600.toNat = 0x000C ∧
    Divisor.BAUD19200.toNat = 0x0006 ∧ Divisor.BAUD38400.toNat = 0x0003 ∧
    Divisor.BAUD57600.toNat = 0x0002 ∧ Divisor.BAUD115200.toNat = 0x0001 := by
  refine ⟨?_, ?_, rfl, rfl, rfl, rfl, rfl, rfl, rfl, rfl, rfl, rfl⟩ <;> decide

/-- C5: `set_fcr(d)` performs exactly one access: a byte write of
`1 | (d << 3)` — equivalently `1 + 8 * d` — to offset 2; concretely
`0x01` for `MODE0` and `0x09` for `MODE1`. -/
theorem set_fcr_writes (u : Uart) (d : DMAMode) :
    u.set_fcr d = [Access.write8 (u.base_address + 2) (1 + 8 * d.toNat)] ∧
    u.set_fcr DMAMode.MODE0 = [Access.write8 (u.base_address + 2) 0x01] ∧
    u.set_fcr DMAMode.MODE1 = [Access.write8 (u.base_address + 2) 0x09] ∧
    (u.set_fcr d).length = 1 := by
  refine ⟨?_, ?_, ?_, ?_⟩ <;> cases d <;> rfl

/-- The OR of the shifted LCR fields equals the weighted sum of the
discriminants (the shifted fields occupy disjoint bit ranges). -/
theorem lcrByte_eq_sum (wl : WordLength) (sb : StopBits) (pb : ParityBit)
    (ps : ParitySelect) (sp : StickParity) (brk : Break) (dlab : DLAB) :
    lcrByte wl sb pb ps sp brk dlab =
      wl.toNat + 4 * sb.toNat + 8 * pb.toNat + 16 * ps.toNat
        + 32 * sp.toNat + 64 * brk.toNat + 128 * dlab.toNat := by
  revert wl sb pb ps sp brk dlab
  decide

/-- C2: `set_lcr` writes to offset 3 exactly the byte assembling each
field at its bit position — bits 0–1 word length, bit 2 stop bits,
bit 3 parity enable, bit 4 parity select, bit 5 stick parity,
bit 6 break, bit 7 DLAB — each field's value being its variant's
ordinal (the OR of the shifted fields written as a weighted sum). -/
theorem set_lcr_writes (u : Uart) (wl : WordLength) (sb : StopBits)
    (pb : ParityBit) (ps : ParitySelect) (sp : StickParity) (brk : Break)
    (dlab : DLAB) :
    u.set_lcr wl sb pb ps sp brk dlab =
      [Access.write8 (u.base_address + 3)
        (wl.toNat + 4 * sb.toNat + 8 * pb.toNat + 16 * ps.toNat
          + 32 * sp.toNat + 64 * brk.toNat + 128 * dlab.toNat)] := by
  rw [Uart.set_lcr, lcrByte_eq_sum]

/-- C8: `set_lcr` performs exactly one register access — a single byte
write to offset 3 — no reads, and every byte of the register block
other than the one at offset 3 is unchanged by it. -/
theorem set_lcr_frame (u : Uart) (wl : WordLength) (sb : StopBits)
    (pb : ParityBit) (ps : ParitySelect) (sp : StickParity) (brk : Break)
    (dlab : DLAB) :
    (u.set_lcr wl sb pb ps sp brk dlab).length = 1 ∧
    (∃ v, u.set_lcr wl sb pb ps sp brk dlab =
      [Access.write8 (u.base_address + 3) v]) ∧
    (∀ a ∈ u.set_lcr wl sb pb ps sp brk dlab, a.isRead = false) ∧
    (∀ (regs : Nat → Nat) (x : Nat), x ≠ u.base_address + 3 →
      applyTrace regs (u.set_lcr wl sb pb ps sp brk dlab) x = regs x) := by
  refine ⟨rfl, ⟨lcrByte wl sb pb ps sp brk dlab, rfl⟩, ?_, ?_⟩
  · intro a ha
    simp only [Uart.set_lcr, List.mem_singleton] at ha
    subst ha
    rfl
  · intro regs x hx
    simp only [Uart.set_lcr, applyTrace, applyAccess]
    exact Function.update_noteq hx _ regs

/-- C8 witness: at base address `0x100`, `set_lcr` leaves the byte at
address `0x105` (offset 5) unchanged. -/
theorem set_lcr_frame_witness :
    (0x105 : Nat) ≠ 0x100 + 3 ∧
    applyTrace (fun _ => 7)
      (Uart.set_lcr ⟨0x100⟩ WordLength.EIGHT StopBits.ONE ParityBit.DISABLE
        ParitySelect.EVEN StickParity.DISABLE Break.DISABLE DLAB.CLEAR)
      0x105 = 7 :=
  ⟨by decide,
    (set_lcr_frame ⟨0x100⟩ WordLength.EIGHT StopBits.ONE ParityBit.DISABLE
      ParitySelect.EVEN StickParity.DISABLE Break.DISABLE DLAB.CLEAR).2.2.2
      (fun _ => 7) 0x105 (by decide)⟩

/-- C3: `put c` reads the LSR; with bit 5 clear it returns `none` and
writes nothing (the state, offset 0 included, is unchanged); with bit 5
set it writes `c` to offset 0, changes no other byte, and returns
`some c`. -/
theorem put_spec (u : Uart) (regs : Nat → Nat) (c : Nat) :
    (regs (u.base_address + 5) &&& 0x20 = 0 →
      u.put regs c = (none, regs)) ∧
    (regs (u.base_address + 5) &&& 0x20 ≠ 0 →
      (u.put regs c).1 = some c ∧
      (u.put regs c).2 u.base_address = c ∧
      ∀ x, x ≠ u.base_address → (u.put regs c).2 x = regs x) := by
  constructor
  · intro h
    simp [Uart.put, h]
  · intro h
    refine ⟨?_, ?_, ?_⟩
    · simp [Uart.put, h]
    · simp [Uart.put, h]
    · intro x hx
      simp [Uart.put, h, Function.update_noteq hx]

/-- C3 witness: at base `0x100` with LSR byte `0x20` the byte `0x41` is
accepted and lands at offset 0; with LSR byte `0` it is rejected and
the state is untouched. -/
theorem put_spec_witness :
    ((Uart.put ⟨0x100⟩ (fun x => if x = 0x105 then 0x20 else 0) 0x41).1
        = some 0x41 ∧
      (Uart.put ⟨0x100⟩ (fun x => if x = 0x105 then 0x20 else 0) 0x41).2
        0x100 = 0x41) ∧
    Uart.put ⟨0x100⟩ (fun _ => 0) 0x41 = (none, fun _ => 0) := by
  have h1 := (put_spec ⟨0x100⟩ (fun x => if x = 0x105 then 0x20 else 0)
    0x41).2 (by norm_num)
  have h2 := (put_spec ⟨0x100⟩ (fun _ => 0) 0x41).1 (by norm_num)
  exact ⟨⟨h1.1, h1.2.1⟩, h2⟩

/-- C4: `get` reads the LSR; with bit 0 clear it returns `none`; with
bit 0 set it returns `some` of the byte read at offset 0. -/
theorem get_spec (u : Uart) (regs : Nat → Nat) :
    (regs (u.base_address + 5) &&& 1 = 0 → u.get regs = none) ∧
    (regs (u.base_address + 5) &&& 1 ≠ 0 →
      u.get regs = some (regs u.base_address)) := by
  constructor
  · intro h
    rw [Uart.get, if_pos h]
  · intro h
    rw [Uart.get, if_neg h]

/-- C4 witness: at base `0x100`, with LSR bit 0 set and `0x58` at
offset 0, `get` returns `0x58`; with the LSR zero it returns `none`. -/
theorem get_spec_witness :
    Uart.get ⟨0x100⟩
        (fun x => if x = 0x105 then 1 else if x = 0x100 then 0x58 else 0)
      = some 0x58 ∧
    Uart.get ⟨0x100⟩ (fun _ => 0) = none := by
  have h1 := (get_spec ⟨0x100⟩
    (fun x => if x = 0x105 then 1 else if x = 0x100 then 0x58 else 0)).2
    (by norm_num)
  have h2 := (get_spec ⟨0x100⟩ (fun _ => 0)).1 (by norm_num)
  exact ⟨by simpa using h1, h2⟩

/-- Bit 7 of the LCR byte is exactly the DLAB field. -/
theorem lcrByte_testBit_seven (wl : WordLength) (sb : StopBits)
    (pb : ParityBit) (ps : ParitySelect) (sp : StickParity) (brk : Break) :
    Nat.testBit (lcrByte wl sb pb ps sp brk DLAB.SET) 7 = true ∧
    Nat.testBit (lcrByte wl sb pb ps sp brk DLAB.CLEAR) 7 = false ∧
    lcrByte wl sb pb ps sp brk DLAB.SET
      = lcrByte wl sb pb ps sp brk DLAB.CLEAR + 128 := by
  revert wl sb pb ps sp brk
  decide

/-- C1: for every configuration and divisor, `init` performs exactly
four register writes, in order: the LCR byte with DLAB = 1 to offset 3,
the FCR byte to offset 2, one 16-bit write of the divisor to offset 0,
and the same LCR byte with DLAB = 0 to offset 3.  Bit 7 of the value at
offset 3 is 1 at the moment of the divisor write (third event, after the
first LCR write) and 0 once `init` returns (last event), the two LCR
bytes differing exactly in bit 7. -/
theorem init_sequence (u : Uart) (wl : WordLength) (sb : StopBits)
    (pb : ParityBit) (ps : ParitySelect) (sp : StickParity) (brk : Break)
    (d : DMAMode) (dv : Divisor) :
    u.init wl sb pb ps sp brk d dv =
      [Access.write8 (u.base_address + 3)
          (lcrByte wl sb pb ps sp brk DLAB.SET),
        Access.write8 (u.base_address + 2) (1 ||| (d.toNat <<< 3)),
        Access.write16 u.base_address dv.toNat,
        Access.write8 (u.base_address + 3)
          (lcrByte wl sb pb ps sp brk DLAB.CLEAR)] ∧
    Nat.testBit (lcrByte wl sb pb ps sp brk DLAB.SET) 7 = true ∧
    Nat.testBit (lcrByte wl sb pb ps sp brk DLAB.CLEAR) 7 = false ∧
    lcrByte wl sb pb ps sp brk DLAB.SET
      = lcrByte wl sb pb ps sp brk DLAB.CLEAR + 128 :=
  ⟨rfl, lcrByte_testBit_seven wl sb pb ps sp brk⟩

/-- C6: the third event of `init` is the 16-bit divisor write at
offset 0; its effect on any register-block state is to put the low byte
of the divisor at offset 0 and the high byte at offset 1, while the
preceding write to offset 3 (the first event) has bit 7 — DLAB — set.
With `BAUD9600` (value `0x000C`) the bytes are `0x0C` and `0x00`. -/
theorem init_divisor_bytes (u : Uart) (wl : WordLength) (sb : StopBits)
    (pb : ParityBit) (ps : ParitySelect) (sp : StickParity) (brk : Break)
    (d : DMAMode) (dv : Divisor) (regs : Nat → Nat) :
    (u.init wl sb pb ps sp brk d dv).get? 2
      = some (Access.write16 u.base_address dv.toNat) ∧
    applyAccess regs (Access.write16 u.base_address dv.toNat) u.base_address
      = dv.toNat % 256 ∧
    applyAccess regs (Access.write16 u.base_address dv.toNat)
        (u.base_address + 1)
      = dv.toNat / 256 % 256 ∧
    ((u.init wl sb pb ps sp brk d dv).get? 0
      = some (Access.write8 (u.base_address + 3)
          (lcrByte wl sb pb ps sp brk DLAB.SET)) ∧
      Nat.testBit (lcrByte wl sb pb ps sp brk DLAB.SET) 7 = true) ∧
    Divisor.BAUD9600.toNat % 256 = 0x0C ∧
    Divisor.BAUD9600.toNat / 256 % 256 = 0x00 := by
  refine ⟨rfl, ?_, ?_, ⟨rfl, (lcrByte_testBit_seven wl sb pb ps sp brk).1⟩,
    rfl, rfl⟩
  · rw [applyAccess, Function.update_noteq (by omega), Function.update_same]
  · rw [applyAccess, Function.update_same]

/-- `put` against the schedule is rejected exactly when bit 5 of the
observed LSR byte is clear. -/
theorem putAt_eq_none_iff (lsr : Nat → Nat) (k c : Nat) :
    putAt lsr k c = none ↔ lsr k &&& 0x20 = 0 := by
  rw [putAt]
  by_cases h : lsr k &&& 0x20 = 0
  · simp [h]
  · simp [h]

/-- `putLoop` succeeds with any larger fuel, with the same result. -/
theorem putLoop_mono (lsr : Nat → Nat) (c : Nat) :
    ∀ f g k r, f ≤ g →
      putLoop lsr c k f = some r → putLoop lsr c k g = some r := by
  intro f
  induction f with
  | zero =>
    intro g k r _ h
    simp [putLoop] at h
  | succ f ih =>
    intro g k r hfg h
    cases g with
    | zero => omega
    | succ g =>
      rw [putLoop] at h ⊢
      by_cases hpa : putAt lsr k c = none
      · rw [if_pos hpa] at h ⊢
        exact ih g (k + 1) r (by omega) h
      · rw [if_neg hpa] at h ⊢
        exact h

/-- If some poll at index `k + d` observes bit 5 set, `putLoop` started
at `k` finds, with enough fuel, a ready poll `j ≥ k` and accepts there. -/
theorem putLoop_reaches (lsr : Nat → Nat) (c : Nat) :
    ∀ d k, lsr (k + d) &&& 0x20 ≠ 0 →
      ∃ fuel j, putLoop lsr c k fuel = some (j, j + 1) ∧ k ≤ j ∧
        lsr j &&& 0x20 ≠ 0 := by
  intro d
  induction d with
  | zero =>
    intro k h
    rw [Nat.add_zero] at h
    refine ⟨1, k, ?_, Nat.le_refl k, h⟩
    rw [putLoop, if_neg ?_]
    rw [putAt_eq_none_iff]
    exact h
  | succ d ih =>
    intro k h
    by_cases hk : lsr k &&& 0x20 = 0
    · obtain ⟨fuel, j, hloop, hkj, hready⟩ := ih (k + 1) (by
        have heq : k + 1 + d = k + (d + 1) := by omega
        rw [heq]
        exact h)
      refine ⟨fuel + 1, j, ?_, by omega, hready⟩
      rw [putLoop, if_pos ((putAt_eq_none_iff lsr k c).mpr hk)]
      exact hloop
    · refine ⟨1, k, ?_, Nat.le_refl k, hk⟩
      rw [putLoop, if_neg ?_]
      rw [putAt_eq_none_iff]
      exact hk

/-- `write_str` succeeds with any larger fuel, with the same result. -/
theorem write_str_mono (lsr : Nat → Nat) :
    ∀ (s : List Nat) f g k r, f ≤ g →
      write_str lsr f s k = some r → write_str lsr g s k = some r := by
  intro s
  induction s with
  | nil =>
    intro f g k r _ h
    rw [write_str] at h ⊢
    exact h
  | cons c cs ih =>
    intro f g k r hfg h
    rw [write_str] at h ⊢
    cases hpl : putLoop lsr c k f with
    | none =>
      rw [hpl] at h
      simp at h
    | some jk =>
      rw [hpl, Option.some_bind] at h
      rw [putLoop_mono lsr c f g k jk hfg hpl, Option.some_bind]
      cases hws : write_str lsr f cs jk.2 with
      | none =>
        rw [hws] at h
        simp at h
      | some wskf =>
        rw [hws, Option.some_bind] at h
        rw [ih f g jk.2 wskf hfg hws, Option.some_bind]
        exact h

/-- Under fairness of the LSR schedule (a ready poll always lies
ahead), `write_str` terminates from any start index with enough fuel,
writes exactly the input bytes in order at strictly increasing ready
polls, and every write poll lies below the final index. -/
theorem write_str_total (lsr : Nat → Nat)
    (hfair : ∀ k, ∃ j, k ≤ j ∧ lsr j &&& 0x20 ≠ 0) :
    ∀ (s : List Nat) (k : Nat), ∃ fuel ws kf,
      write_str lsr fuel s k = some (ws, kf) ∧
      List.map Prod.snd ws = s ∧
      (∀ p ∈ ws, k ≤ p.1 ∧ p.1 < kf ∧ lsr p.1 &&& 0x20 ≠ 0) ∧
      List.Chain' (fun a b => a < b) (List.map Prod.fst ws) ∧
      k ≤ kf := by
  intro s
  induction s with
  | nil =>
    intro k
    exact ⟨0, [], k, rfl, rfl, by simp, by simp, Nat.le_refl k⟩
  | cons c cs ih =>
    intro k
    obtain ⟨j0, hj0, hready0⟩ := hfair k
    obtain ⟨f1, j, hloop, hkj, hready⟩ := putLoop_reaches lsr c (j0 - k) k
      (by rw [Nat.add_sub_cancel' hj0]; exact hready0)
    obtain ⟨f2, ws, kf, hw, hmap, hbound, hchain, hkf⟩ := ih (j + 1)
    refine ⟨max f1 f2, (j, c) :: ws, kf, ?_, ?_, ?_, ?_, by omega⟩
    · rw [write_str]
      rw [putLoop_mono lsr c f1 (max f1 f2) k (j, j + 1)
        (Nat.le_max_left f1 f2) hloop, Option.some_bind]
      rw [write_str_mono lsr cs f2 (max f1 f2) (j + 1) (ws, kf)
        (Nat.le_max_right f1 f2) hw, Option.some_bind]
    · rw [List.map_cons, hmap]
    · intro p hp
      rcases List.mem_cons.mp hp with hpj | hpw
      · subst hpj
        exact ⟨hkj, by omega, hready⟩
      · obtain ⟨h1, h2, h3⟩ := hbound p hpw
        exact ⟨by omega, h2, h3⟩
    · rw [List.map_cons]
      refine List.chain'_cons'.mpr ⟨?_, hchain⟩
      intro y hy
      obtain ⟨p, hp, hpy⟩ := List.mem_map.mp (List.mem_of_mem_head? hy)
      have := (hbound p hp).1
      omega

/-- C7: against any LSR schedule in which a ready poll always lies
ahead (so each byte is eventually accepted), `write_str` returns —
with enough fuel for the spinning — having written exactly the bytes of
the input to offset 0, in input order at strictly increasing poll
indices, each write at a poll that observed bit 5 set; the call
succeeds (`some`, the embedding of `Ok(())`) only once the last byte is
accepted. -/
theorem write_str_fair (lsr : Nat → Nat) (s : List Nat)
    (hfair : ∀ k, ∃ j, k ≤ j ∧ lsr j &&& 0x20 ≠ 0) :
    ∃ fuel ws kf, write_str lsr fuel s 0 = some (ws, kf) ∧
      List.map Prod.snd ws = s ∧
      List.Chain' (fun a b => a < b) (List.map Prod.fst ws) ∧
      ∀ p ∈ ws, lsr p.1 &&& 0x20 ≠ 0 := by
  obtain ⟨fuel, ws, kf, h1, h2, h3, h4, _⟩ := write_str_total lsr hfair s 0
  exact ⟨fuel, ws, kf, h1, h2, h4, fun p hp => (h3 p hp).2.2⟩

/-- C7 witness: the bytes of `"AB"` against the schedule that reports
bit 5 set only on every other poll are still both emitted, in order. -/
theorem write_str_fair_witness :
    ∃ fuel ws kf,
      write_str (fun k => if k % 2 = 1 then 0x20 else 0) fuel
          [0x41, 0x42] 0 = some (ws, kf) ∧
      List.map Prod.snd ws = [0x41, 0x42] ∧
      List.Chain' (fun a b => a < b) (List.map Prod.fst ws) ∧
      ∀ p ∈ ws, (fun k => if k % 2 = 1 then 0x20 else 0) p.1 &&& 0x20 ≠ 0 :=
  write_str_fair (fun k => if k % 2 = 1 then 0x20 else 0) [0x41, 0x42] (by
    intro k
    refine ⟨2 * k + 1, by omega, ?_⟩
    have h2 : (2 * k + 1) % 2 = 1 := by omega
    simp [h2])
